import Mathlib

/-!
Verification of the scoring and ranking engine of the "boast" competition app.

The definitions below are a shallow embedding of the TypeScript source:
* `calculateTeamSummaries`, `saveScoreInserts`, `saveWinner`, `saveScoresOp`,
  `recalculateAllTeamTotals` follow `ScoreEntry.tsx`;
* `recalcActivityScores`, `recalculateExistingScoresOp`, `recalcTeams` follow
  `Scoring.tsx` (rule-change recomputation and team-total recomputation);
* `deleteActivityOp` follows `Activities.tsx`;
* `assignRanks`, `loadIndividualResults`, `calculateMVP` follow
  `CompetitionResults.tsx`.

JavaScript `Record<string, number>` objects are modelled as association
lists in insertion order; `Array.prototype.sort` (stable, per ECMAScript)
is modelled by the stable insertion sort `sortDescBy`; the empty string /
`null` winner selection is modelled by `Option`.  Raw scores and points are
modelled as `Int`.
-/

namespace Boast

/-- Scoring rules, five configurable point values (`ScoringRules` in the source). -/
structure ScoringRules where
  teamWin : Int
  teamLoss : Int
  firstPlace : Int
  secondPlace : Int
  lastPlace : Int
deriving DecidableEq, Repr

/-- The default rules (`useState` initialiser in `ScoreEntry.tsx` / `Scoring.tsx`). -/
def defaultRules : ScoringRules :=
  { teamWin := 50, teamLoss := 0, firstPlace := 10, secondPlace := 5, lastPlace := -5 }

/-- A team row (`teams` table). -/
structure Team where
  id : String
  name : String
  captain : String
  total_score : Int
deriving DecidableEq, Repr

/-- A participant row (`participants` table). -/
structure Participant where
  id : String
  name : String
  team_id : String
deriving DecidableEq, Repr

/-- An activity row (`activities` table). -/
structure ActivityRow where
  id : String
  type : String
  completed : Bool
  winner : String
deriving DecidableEq, Repr

/-- A score row (`scores` table); this is the PointRecord of the spec.
`value = null`, `participant_id = null` etc. are modelled by `none`. -/
structure ScoreRecord where
  activity_id : String
  team_id : Option String
  participant_id : Option String
  value : Option Int
  individual_score : Option Int
  score_type : String
  points_earned : Int
deriving DecidableEq, Repr

/-- A participant with a resolved score inside a team summary
(the `{ id, name, score }` objects of `calculateTeamSummaries`). -/
structure PScore where
  id : String
  name : String
  score : Int
deriving DecidableEq, Repr

/-- One entry of `individual_bonuses` in a team summary. -/
structure BonusEntry where
  participant : String
  bonus : Int
  reason : String
deriving DecidableEq, Repr

/-- The `TeamSummary` record computed by `calculateTeamSummaries` in `ScoreEntry.tsx`. -/
structure TeamSummary where
  team_id : String
  team_name : String
  total_score : Int
  participants : List PScore
  placement_bonus : Int
  individual_bonuses : List BonusEntry
  total_individual_bonuses : Int
  final_points : Int
deriving DecidableEq, Repr

/-- A flattened participant entry used for the cross-team ranking
(the `{ ...p, team_id, team_name }` objects in `calculateTeamSummaries`). -/
structure RankedP where
  pid : String
  pname : String
  score : Int
  team_id : String
  team_name : String
deriving DecidableEq, Repr

/-- Stable insert for descending insertion sort: `x` goes in front of the first
element whose key is `≤ key x`.  Together with `sortDescBy` this models the
stable descending `Array.prototype.sort((a, b) => keyB - keyA)` of ECMAScript. -/
def insertDescBy (key : α → Int) (x : α) : List α → List α
  | [] => [x]
  | y :: ys => if key y ≤ key x then x :: y :: ys else y :: insertDescBy key x ys

/-- Stable descending sort by an integer key (model of the JS stable sort). -/
def sortDescBy (key : α → Int) : List α → List α
  | [] => []
  | x :: xs => insertDescBy key x (sortDescBy key xs)

/-- The tail of the tie-aware rank assignment loop: `prevScore`/`prevRank` are the
score and rank of the previous entry, `pos` is the 1-based position of the head. -/
def assignRanksGo (key : α → Int) : Int → Nat → Nat → List α → List (α × Nat)
  | _, _, _, [] => []
  | prevScore, prevRank, pos, x :: xs =>
    let r := if key x = prevScore then prevRank else pos
    (x, r) :: assignRanksGo key (key x) r (pos + 1) xs

/-- Competition-ranking loop over an already sorted list: first entry gets rank 1,
a later entry inherits the previous rank when scores are equal, otherwise gets
its 1-based position (the `currentRank` loop of `ScoreEntry.tsx` and
`CompetitionResults.tsx`). -/
def assignRanks (key : α → Int) : List α → List (α × Nat)
  | [] => []
  | x :: xs => (x, 1) :: assignRanksGo key (key x) 1 2 xs

/-- Deduplication keeping first occurrences (model of `[...new Set(l)]`). -/
def dedupFirstAux : List Int → List Int → List Int
  | _, [] => []
  | seen, x :: xs =>
    if x ∈ seen then dedupFirstAux seen xs else x :: dedupFirstAux (x :: seen) xs

/-- `[...new Set(l)]`: the distinct values of `l` in order of first appearance. -/
def dedupFirst (l : List Int) : List Int := dedupFirstAux [] l

/-- The `scoreToEffectivePlacement` construction: walk the distinct scores in
descending order, assign the running placement, and advance the placement by
the number of entries having that score. -/
def buildPlacements (all : List Int) : List Int → Nat → List (Int × Nat)
  | [], _ => []
  | s :: rest, cur =>
    (s, cur) :: buildPlacements all rest (cur + (all.filter (fun v => v = s)).length)

/-- The distinct scores of `l` sorted descending
(`[...new Set(l.map(...))].sort((a, b) => b - a)`). -/
def uniqueScoresDesc (l : List Int) : List Int :=
  sortDescBy (fun v => v) (dedupFirst l)

/-- Effective placement of a score value, given the placement table. -/
def effPlacementOf (placements : List (Int × Nat)) (s : Int) : Nat :=
  (placements.lookup s).getD 0

/-- The score of a participant as read by the component:
`individualScores[p.id] || 0`. -/
def scoreOf (individualScores : List (String × Int)) (pid : String) : Int :=
  (individualScores.lookup pid).getD 0

/-- The base summary of one team: its participants with their entered scores
(missing entries read as 0) and the team total (`summaries` construction in
`calculateTeamSummaries`). -/
def baseSummary (participants : List Participant)
    (individualScores : List (String × Int)) (team : Team) : TeamSummary :=
  let tps := participants.filter (fun p => p.team_id = team.id)
  let pscores := tps.map (fun p =>
    { id := p.id, name := p.name, score := scoreOf individualScores p.id : PScore })
  { team_id := team.id
    team_name := team.name
    total_score := (pscores.map (fun p => p.score)).sum
    participants := pscores
    placement_bonus := 0
    individual_bonuses := []
    total_individual_bonuses := 0
    final_points := 0 }

/-- Placement bonus of the summary at index `idx` of the list sorted by team
total (the `sortedByTotal.forEach((summary, index) => ...)` loop). -/
def placementBonusAt (rules : ScoringRules) (n idx : Nat) : Int :=
  if idx = 0 ∧ n > 1 then rules.teamWin
  else if idx = n - 1 ∧ n > 1 then rules.teamLoss
  else 0

/-- The per-participant bonus entry of the `if / else if` chain in
`calculateTeamSummaries`: first place by effective placement, second place by
effective placement, last place by competition rank. -/
def bonusEntryFor (rules : ScoringRules) (rankings : List (RankedP × Nat))
    (placements : List (Int × Nat)) (allSorted : List RankedP)
    (p : PScore) : Option BonusEntry :=
  match rankings.find? (fun x => x.1.pid = p.id) with
  | none => none
  | some entry =>
    let rank := entry.2
    let eff := effPlacementOf placements entry.1.score
    let totalParticipants := allSorted.length
    if eff = 1 ∧ totalParticipants > 1 then
      some { participant := p.name, bonus := rules.firstPlace,
             reason :=
               if rank = 1 ∧ (allSorted.filter (fun x => x.score = entry.1.score)).length > 1
               then "1st Place Overall (Tied)" else "1st Place Overall" }
    else if eff = 2 ∧ totalParticipants > 2 then
      some { participant := p.name, bonus := rules.secondPlace,
             reason := "2nd Place Overall" }
    else if rank = totalParticipants ∧ totalParticipants > 2 then
      some { participant := p.name, bonus := rules.lastPlace,
             reason := "Last Place Overall" }
    else none

/-- `calculateTeamSummaries` of `ScoreEntry.tsx`: team summaries for an
individual activity, with placement bonuses and individual bonuses. -/
def calculateTeamSummaries (activityType : String) (teams : List Team)
    (participants : List Participant) (individualScores : List (String × Int))
    (rules : ScoringRules) : List TeamSummary :=
  if activityType ≠ "individual" then [] else
  let base := teams.map (baseSummary participants individualScores)
  let hasActualScores := base.any (fun s => s.total_score > 0)
  if ¬ hasActualScores then base else
  let sorted := sortDescBy (fun s => s.total_score) base
  let n := sorted.length
  let withPlacement := base.map (fun s =>
    let idx := sorted.findIdx (fun u => u.team_id = s.team_id)
    { s with placement_bonus := placementBonusAt rules n idx })
  let allSorted := sortDescBy (fun x => x.score)
    (withPlacement.flatMap (fun s => s.participants.map (fun p =>
      { pid := p.id, pname := p.name, score := p.score,
        team_id := s.team_id, team_name := s.team_name : RankedP })))
  let rankings := assignRanks (fun x => x.score) allSorted
  let placements :=
    buildPlacements (allSorted.map (fun x => x.score))
      (uniqueScoresDesc (allSorted.map (fun x => x.score))) 1
  withPlacement.map (fun s =>
    let bonuses := s.participants.filterMap
      (bonusEntryFor rules rankings placements allSorted)
    let tib := (bonuses.map (fun b => b.bonus)).sum
    { s with individual_bonuses := bonuses, total_individual_bonuses := tib,
             final_points := s.placement_bonus + tib })

/-- The score rows inserted by `saveScores` in `ScoreEntry.tsx` for one
activity (custom team mode, win/loss mode, or individual mode). -/
def saveScoreInserts (act : ActivityRow) (teams : List Team)
    (participants : List Participant) (teamScores : List (String × Int))
    (individualScores : List (String × Int)) (selectedWinnerTeam : Option String)
    (useCustomScores : Bool) (rules : ScoringRules) : List ScoreRecord :=
  if act.type = "team" then
    if useCustomScores then
      teamScores.filterMap (fun ts =>
        if ts.2 > 0 then
          some { activity_id := act.id, team_id := some ts.1, participant_id := none,
                 value := some ts.2, individual_score := none, score_type := "team",
                 points_earned := ts.2 }
        else none)
    else
      match selectedWinnerTeam with
      | none => []
      | some w =>
        teams.map (fun team =>
          { activity_id := act.id, team_id := some team.id, participant_id := none,
            value := some (if team.id = w then 1 else 0), individual_score := none,
            score_type := "team",
            points_earned := if team.id = w then rules.teamWin else rules.teamLoss })
  else
    let summaries := calculateTeamSummaries act.type teams participants individualScores rules
    let indiv := individualScores.filterMap (fun isc =>
      if isc.2 > 0 then
        some { activity_id := act.id,
               team_id := (participants.find? (fun p => p.id = isc.1)).map
                 (fun p => p.team_id),
               participant_id := some isc.1, value := none,
               individual_score := some isc.2, score_type := "individual",
               points_earned := 0 }
      else none)
    let teamRecs := summaries.map (fun s =>
      { activity_id := act.id, team_id := some s.team_id, participant_id := none,
        value := some s.total_score, individual_score := none, score_type := "team",
        points_earned := s.final_points })
    indiv ++ teamRecs

/-- The `winner` string computed by `saveScores`: the selected team's name in
team mode, the top team by final points (when positive) in individual mode. -/
def saveWinner (act : ActivityRow) (teams : List Team)
    (participants : List Participant) (individualScores : List (String × Int))
    (selectedWinnerTeam : Option String) (rules : ScoringRules) : String :=
  if act.type = "team" then
    match selectedWinnerTeam with
    | some w => ((teams.find? (fun t => t.id = w)).map (fun t => t.name)).getD ""
    | none => ""
  else
    let sorted := sortDescBy (fun s => s.final_points)
      (calculateTeamSummaries act.type teams participants individualScores rules)
    match sorted with
    | [] => ""
    | s :: _ => if s.final_points > 0 then s.team_name else ""

/-- The persistent state the engine operates on: one competition's rows of the
`scores`, `activities`, `teams` and `participants` tables. -/
structure Store where
  scores : List ScoreRecord
  activities : List ActivityRow
  teams : List Team
  participants : List Participant
deriving DecidableEq, Repr

/-- Sum of `points_earned` over ALL score rows with the given `team_id`
(the query of `recalculateAllTeamTotals` / `recalculateTeamTotals`:
`.select('points_earned').eq('team_id', team.id)` — note: no filter on
`score_type`). -/
def teamTotalFromScores (scores : List ScoreRecord) (tid : String) : Int :=
  ((scores.filter (fun r => r.team_id = some tid)).map
    (fun r => r.points_earned)).sum

/-- `recalculateAllTeamTotals` / `recalculateTeamTotals`: every team's
`total_score` is recomputed from scratch from the current score rows. -/
def recalcTeams (scores : List ScoreRecord) (teams : List Team) : List Team :=
  teams.map (fun t => { t with total_score := teamTotalFromScores scores t.id })

/-- `saveScores` of `ScoreEntry.tsx` as a store transition: delete the
activity's old score rows, insert the new ones, mark the activity completed
with the computed winner (unconditionally), then recompute all team totals. -/
def saveScoresOp (st : Store) (act : ActivityRow)
    (teamScores individualScores : List (String × Int))
    (selectedWinnerTeam : Option String) (useCustomScores : Bool)
    (rules : ScoringRules) : Store :=
  let inserts := saveScoreInserts act st.teams st.participants teamScores
    individualScores selectedWinnerTeam useCustomScores rules
  let winner := saveWinner act st.teams st.participants individualScores
    selectedWinnerTeam rules
  let scores1 := st.scores.filter (fun r => r.activity_id ≠ act.id) ++ inserts
  let acts1 := st.activities.map (fun a =>
    if a.id = act.id then { a with completed := true, winner := winner } else a)
  { st with scores := scores1, activities := acts1,
            teams := recalcTeams scores1 st.teams }

/-- `deleteActivity` of `Activities.tsx`: delete the activity and its score
rows, then recompute all team totals. -/
def deleteActivityOp (st : Store) (aid : String) : Store :=
  let scores1 := st.scores.filter (fun r => r.activity_id ≠ aid)
  { st with scores := scores1,
            activities := st.activities.filter (fun a => a.id ≠ aid),
            teams := recalcTeams scores1 st.teams }

/-- The per-row update of the rule-change recomputation in `Scoring.tsx` for a
team-kind row: a row is the winner's iff its stored `value` is 1. -/
def recalcTeamRow (newRules : ScoringRules) (r : ScoreRecord) : ScoreRecord :=
  { r with points_earned :=
      if r.value = some 1 then newRules.teamWin else newRules.teamLoss }

/-- `recalculateExistingScores` of `Scoring.tsx`, restricted to one completed
activity: team-kind rows are re-pointed by the `value === 1` winner test; for
an individual activity the individual-kind rows are re-pointed from
effective placements computed over `parseFloat(String(value || '0'))`
(NOT `individual_score`), with the last-place penalty overwriting any
first/second-place bonus. -/
def recalcActivityScores (newRules : ScoringRules) (act : ActivityRow)
    (scores : List ScoreRecord) : List ScoreRecord :=
  if act.type = "team" then
    scores.map (fun r =>
      if r.activity_id = act.id ∧ r.score_type = "team" ∧ r.team_id ≠ none then
        recalcTeamRow newRules r
      else r)
  else if act.type = "individual" then
    let rows := scores.filter (fun r =>
      r.activity_id = act.id ∧ r.score_type = "individual" ∧ r.participant_id ≠ none)
    let vals := (sortDescBy (fun v => v) (rows.map (fun r => (r.value).getD 0)))
    let placements := buildPlacements vals (uniqueScoresDesc vals) 1
    let lastEff := (placements.map (fun x => x.2)).foldl Nat.max 0
    let n := vals.length
    scores.map (fun r =>
      if r.activity_id = act.id ∧ r.score_type = "team" ∧ r.team_id ≠ none then
        recalcTeamRow newRules r
      else if r.activity_id = act.id ∧ r.score_type = "individual" ∧
          r.participant_id ≠ none then
        let eff := effPlacementOf placements ((r.value).getD 0)
        let base :=
          if eff = 1 ∧ n > 1 then newRules.firstPlace
          else if eff = 2 ∧ n > 2 then newRules.secondPlace
          else 0
        { r with points_earned :=
            if eff = lastEff ∧ n > 2 then newRules.lastPlace else base }
      else r)
  else scores

/-- `recalculateExistingScores` followed by `recalculateTeamTotals` as a store
transition: every completed activity's rows are re-pointed under the new
rules, then all team totals are recomputed. -/
def recalculateExistingScoresOp (st : Store) (newRules : ScoringRules) : Store :=
  let completedActs := st.activities.filter (fun a => a.completed)
  let scores1 := completedActs.foldl
    (fun sc act => recalcActivityScores newRules act sc) st.scores
  { st with scores := scores1, teams := recalcTeams scores1 st.teams }

/-- The ranked result rows of one individual activity in
`loadIndividualResults` of `CompetitionResults.tsx`: the activity's
individual-kind score rows, sorted descending by `individual_score`, with
tie-aware competition ranks. -/
def individualResultsFor (scores : List ScoreRecord) (act : ActivityRow) :
    List (String × Nat) :=
  let rows := scores.filter (fun r =>
    r.activity_id = act.id ∧ r.score_type = "individual")
  let ps := rows.map (fun r => ((r.participant_id).getD "", (r.individual_score).getD 0))
  (assignRanks (fun x => x.2) (sortDescBy (fun x => x.2) ps)).map
    (fun e => (e.1.1, e.2))

/-- `loadIndividualResults`: a result entry (possibly with an empty row list)
for EVERY individual activity, completed or not. -/
def loadIndividualResults (acts : List ActivityRow) (scores : List ScoreRecord) :
    List (String × List (String × Nat)) :=
  (acts.filter (fun a => a.type = "individual")).map
    (fun a => (a.id, individualResultsFor scores a))

/-- Append one rank observation to the `participantRanks` accumulator
(JS object keyed by participant id, insertion order preserved). -/
def addRank (m : List (String × List Nat)) (pid : String) (rk : Nat) :
    List (String × List Nat) :=
  if m.any (fun e => e.1 = pid) then
    m.map (fun e => if e.1 = pid then (e.1, e.2 ++ [rk]) else e)
  else m ++ [(pid, [rk])]

/-- Collect each participant's ranks across the considered activities
(the nested `forEach` of `calculateMVP`). -/
def collectRanks (results : List (String × List (String × Nat)))
    (indActs : List ActivityRow) : List (String × List Nat) :=
  indActs.foldl (fun m a =>
    ((results.lookup a.id).getD []).foldl (fun m' row => addRank m' row.1 row.2) m) []

/-- `calculateMVP` of `CompetitionResults.tsx`: among participants whose rank
count equals the number of considered individual activities, the first one
with the strictly lowest average rank.  The filter
`a.type === 'individual' && individualResults[a.id]` keeps every individual
activity whose id is a key of the results map — an empty result array is
truthy in JavaScript. -/
def calculateMVP (results : List (String × List (String × Nat)))
    (acts : List ActivityRow) : Option String :=
  let indActs := acts.filter (fun a =>
    a.type = "individual" ∧ (results.lookup a.id).isSome)
  if indActs.length = 0 then none
  else
    let pr := collectRanks results indActs
    (pr.foldl (fun best e =>
      if e.2.length = indActs.length then
        let avg : ℚ := ((e.2.map (fun r => (r : ℚ))).sum) / (e.2.length : ℚ)
        match best with
        | none => some (e.1, avg)
        | some b => if avg < b.2 then some (e.1, avg) else best
      else best) none).map (fun b => b.1)

/-- End-to-end MVP computation as `CompetitionResults.tsx` performs it:
build the per-activity individual results, then compute the MVP. -/
def computeMVPFromStore (st : Store) : Option String :=
  calculateMVP (loadIndividualResults st.activities st.scores) st.activities

/-! ### Lemmas about the stable descending sort -/

theorem length_insertDescBy (key : α → Int) (x : α) (l : List α) :
    (insertDescBy key x l).length = l.length + 1 := by
  induction l with
  | nil => rfl
  | cons y ys ih =>
    simp only [insertDescBy]
    split <;> simp [ih]

theorem perm_insertDescBy (key : α → Int) (x : α) (l : List α) :
    List.Perm (insertDescBy key x l) (x :: l) := by
  induction l with
  | nil => rfl
  | cons y ys ih =>
    simp only [insertDescBy]
    split
    · rfl
    · exact ((ih.cons y).trans (List.Perm.swap x y ys))

theorem perm_sortDescBy (key : α → Int) (l : List α) : List.Perm (sortDescBy key l) l := by
  induction l with
  | nil => rfl
  | cons x xs ih =>
    exact (perm_insertDescBy key x (sortDescBy key xs)).trans (ih.cons x)

theorem length_sortDescBy (key : α → Int) (l : List α) :
    (sortDescBy key l).length = l.length :=
  (perm_sortDescBy key l).length_eq

theorem mem_sortDescBy (key : α → Int) {l : List α} {a : α} :
    a ∈ sortDescBy key l ↔ a ∈ l :=
  (perm_sortDescBy key l).mem_iff

theorem pairwise_insertDescBy (key : α → Int) (x : α) {l : List α}
    (h : l.Pairwise (fun a b => key b ≤ key a)) :
    (insertDescBy key x l).Pairwise (fun a b => key b ≤ key a) := by
  induction l with
  | nil => simp [insertDescBy]
  | cons y ys ih =>
    simp only [insertDescBy]
    rcases List.pairwise_cons.mp h with ⟨hy, hys⟩
    split
    · rename_i hle
      refine List.pairwise_cons.mpr ⟨?_, h⟩
      intro b hb
      rcases List.mem_cons.mp hb with rfl | hb
      · exact hle
      · exact le_trans (hy b hb) hle
    · rename_i hgt
      push_neg at hgt
      refine List.pairwise_cons.mpr ⟨?_, ih hys⟩
      intro b hb
      rcases List.mem_cons.mp ((perm_insertDescBy key x ys).mem_iff.mp hb) with rfl | hb
      · exact le_of_lt hgt
      · exact hy b hb

theorem pairwise_sortDescBy (key : α → Int) (l : List α) :
    (sortDescBy key l).Pairwise (fun a b => key b ≤ key a) := by
  induction l with
  | nil => simp [sortDescBy]
  | cons x xs ih => exact pairwise_insertDescBy key x ih

/-! ### Lemmas about the tie-aware rank assignment -/

theorem assignRanksGo_map_fst (key : α → Int) :
    ∀ (xs : List α) (prev : Int) (pr pos : Nat),
      (assignRanksGo key prev pr pos xs).map Prod.fst = xs := by
  intro xs
  induction xs with
  | nil => intro prev pr pos; rfl
  | cons x xs ih =>
    intro prev pr pos
    simp only [assignRanksGo, List.map_cons]
    exact congrArg (x :: ·) (ih _ _ _)

theorem assignRanksGo_length (key : α → Int) (xs : List α) (prev : Int)
    (pr pos : Nat) : (assignRanksGo key prev pr pos xs).length = xs.length := by
  have h := assignRanksGo_map_fst key xs prev pr pos
  simpa using congrArg List.length h

theorem assignRanksGo_head (key : α → Int) (prev : Int) (pr pos : Nat)
    (ys : List α) (h : 0 < (assignRanksGo key prev pr pos ys).length) :
    ((assignRanksGo key prev pr pos ys).get ⟨0, h⟩).2 =
      if key ((assignRanksGo key prev pr pos ys).get ⟨0, h⟩).1 = prev then pr
      else pos := by
  cases ys with
  | nil => simp [assignRanksGo] at h
  | cons y ys => simp [assignRanksGo]

theorem assignRanksGo_rank (key : α → Int) :
    ∀ (xs : List α) (prev : Int) (pr pos : Nat) (i : Nat)
      (h : i + 1 < (assignRanksGo key prev pr pos xs).length)
      (h' : i < (assignRanksGo key prev pr pos xs).length),
      ((assignRanksGo key prev pr pos xs).get ⟨i + 1, h⟩).2 =
        if key ((assignRanksGo key prev pr pos xs).get ⟨i + 1, h⟩).1 =
            key ((assignRanksGo key prev pr pos xs).get ⟨i, h'⟩).1
        then ((assignRanksGo key prev pr pos xs).get ⟨i, h'⟩).2
        else pos + i + 1 := by
  intro xs
  induction xs with
  | nil => intro prev pr pos i h h'; simp [assignRanksGo] at h
  | cons x xs ih =>
    intro prev pr pos i h h'
    cases i with
    | zero =>
      have h0 : 0 < (assignRanksGo key (key x)
          (if key x = prev then pr else pos) (pos + 1) xs).length := by
        simp only [assignRanksGo, List.length_cons] at h
        omega
      simpa [assignRanksGo] using assignRanksGo_head key (key x)
        (if key x = prev then pr else pos) (pos + 1) xs h0
    | succ j =>
      have hj : j + 1 < (assignRanksGo key (key x)
          (if key x = prev then pr else pos) (pos + 1) xs).length := by
        simp only [assignRanksGo, List.length_cons] at h
        omega
      have hj' : j < (assignRanksGo key (key x)
          (if key x = prev then pr else pos) (pos + 1) xs).length := by
        omega
      have := ih (key x) (if key x = prev then pr else pos) (pos + 1) j hj hj'
      simp only [assignRanksGo, List.get_cons_succ]
      rw [this]
      congr 1
      omega

theorem assignRanks_map_fst (key : α → Int) (l : List α) :
    (assignRanks key l).map Prod.fst = l := by
  cases l with
  | nil => rfl
  | cons x xs =>
    simp only [assignRanks, List.map_cons]
    exact congrArg (x :: ·) (assignRanksGo_map_fst key xs (key x) 1 2)

theorem assignRanks_head (key : α → Int) (l : List α)
    (h : 0 < (assignRanks key l).length) :
    ((assignRanks key l).get ⟨0, h⟩).2 = 1 := by
  cases l with
  | nil => simp [assignRanks] at h
  | cons x xs => simp [assignRanks]

theorem sortDescBy_get_findIdx {β : Type} [DecidableEq β] (key : α → Int)
    (f : α → β) {l : List α} {x : α} (hx : x ∈ l) (hnd : (l.map f).Nodup) :
    ∃ h : (sortDescBy key l).findIdx (fun u => f u = f x) < (sortDescBy key l).length,
      (sortDescBy key l).get ⟨(sortDescBy key l).findIdx (fun u => f u = f x), h⟩ = x := by
  have hxs : x ∈ sortDescBy key l := (mem_sortDescBy key).mpr hx
  have hlt : (sortDescBy key l).findIdx (fun u => f u = f x) < (sortDescBy key l).length :=
    List.findIdx_lt_length_of_exists ⟨x, hxs, by simp⟩
  refine ⟨hlt, ?_⟩
  have hp := @List.findIdx_getElem _ (fun u => decide (f u = f x))
    (sortDescBy key l) hlt
  have hmem : (sortDescBy key l).get
      ⟨(sortDescBy key l).findIdx (fun u => f u = f x), hlt⟩ ∈ l := by
    exact (mem_sortDescBy key).mp (List.get_mem _ _ _)
  have hfe : f ((sortDescBy key l).get
      ⟨(sortDescBy key l).findIdx (fun u => f u = f x), hlt⟩) = f x := by
    simpa using hp
  exact List.inj_on_of_nodup_map hnd hmem hx hfe

theorem findIdx_sortDescBy_max {β : Type} [DecidableEq β] (key : α → Int)
    (f : α → β) {l : List α} {x : α} (hx : x ∈ l)
    (hmax : ∀ y ∈ l, f y ≠ f x → key y < key x) :
    (sortDescBy key l).findIdx (fun u => f u = f x) = 0 := by
  have hxs : x ∈ sortDescBy key l := (mem_sortDescBy key).mpr hx
  rcases hs : sortDescBy key l with _ | ⟨hd, tl⟩
  · rw [hs] at hxs; simp at hxs
  · have hpair := pairwise_sortDescBy key l
    rw [hs] at hpair hxs
    have hhd : f hd = f x := by
      by_contra hne
      have hhl : hd ∈ l := by
        have : hd ∈ sortDescBy key l := by rw [hs]; exact List.mem_cons_self _ _
        exact (mem_sortDescBy key).mp this
      have hlt := hmax hd hhl hne
      rcases List.mem_cons.mp hxs with rfl | hxt
      · exact hne rfl
      · exact absurd (List.rel_of_pairwise_cons hpair hxt) (by omega)
    simp [List.findIdx_cons, hhd]

theorem findIdx_sortDescBy_min {β : Type} [DecidableEq β] (key : α → Int)
    (f : α → β) {l : List α} {x : α} (hx : x ∈ l) (hnd : (l.map f).Nodup)
    (hmin : ∀ y ∈ l, f y ≠ f x → key x < key y) :
    (sortDescBy key l).findIdx (fun u => f u = f x) = l.length - 1 := by
  obtain ⟨hlt, hget⟩ := sortDescBy_get_findIdx key f hx hnd
  have hlen : (sortDescBy key l).length = l.length := length_sortDescBy key l
  by_contra hne
  have hidxlt : (sortDescBy key l).findIdx (fun u => f u = f x) < l.length - 1 := by
    omega
  have hlast : l.length - 1 < (sortDescBy key l).length := by omega
  have hpg := (List.pairwise_iff_get.mp (pairwise_sortDescBy key l))
    ⟨(sortDescBy key l).findIdx (fun u => f u = f x), hlt⟩ ⟨l.length - 1, hlast⟩
    (by simp only [Fin.mk_lt_mk]; omega)
  rw [hget] at hpg
  have hymem : (sortDescBy key l).get ⟨l.length - 1, hlast⟩ ∈ l :=
    (mem_sortDescBy key).mp (List.get_mem _ _ _)
  have hyx : (sortDescBy key l).get ⟨l.length - 1, hlast⟩ ≠ x := by
    intro he
    rw [← hget] at he
    have hnds : (sortDescBy key l).Nodup :=
      ((perm_sortDescBy key l).nodup_iff).mpr (List.Nodup.of_map f hnd)
    have := (hnds.get_inj_iff).mp he
    simp only [Fin.mk.injEq] at this
    omega
  have hfy : f ((sortDescBy key l).get ⟨l.length - 1, hlast⟩) ≠ f x := fun he =>
    hyx (List.inj_on_of_nodup_map hnd hymem hx he)
  have := hmin _ hymem hfy
  omega

theorem findIdx_sortDescBy_middle {β : Type} [DecidableEq β] (key : α → Int)
    (f : α → β) {l : List α} {x : α} (hx : x ∈ l) (hnd : (l.map f).Nodup)
    (hup : ∃ y ∈ l, f y ≠ f x ∧ key x < key y)
    (hdown : ∃ y ∈ l, f y ≠ f x ∧ key y < key x) :
    0 < (sortDescBy key l).findIdx (fun u => f u = f x) ∧
      (sortDescBy key l).findIdx (fun u => f u = f x) < l.length - 1 := by
  obtain ⟨hlt, hget⟩ := sortDescBy_get_findIdx key f hx hnd
  have hlen : (sortDescBy key l).length = l.length := length_sortDescBy key l
  have hpg := List.pairwise_iff_get.mp (pairwise_sortDescBy key l)
  constructor
  · rcases hup with ⟨y, hymem, hfy, hky⟩
    obtain ⟨⟨j, hj⟩, hgj⟩ := List.mem_iff_get.mp ((mem_sortDescBy key).mpr hymem)
    rcases Nat.lt_trichotomy j ((sortDescBy key l).findIdx (fun u => f u = f x))
      with hlt2 | heq | hgt2
    · omega
    · exfalso
      apply hfy
      rw [← hgj, ← hget]
      exact congrArg (fun i => f ((sortDescBy key l).get i)) (Fin.mk_eq_mk.mpr heq)
    · exfalso
      have := hpg ⟨(sortDescBy key l).findIdx (fun u => f u = f x), hlt⟩ ⟨j, hj⟩
        (Fin.mk_lt_mk.mpr hgt2)
      rw [hget, hgj] at this
      omega
  · rcases hdown with ⟨y, hymem, hfy, hky⟩
    obtain ⟨⟨j, hj⟩, hgj⟩ := List.mem_iff_get.mp ((mem_sortDescBy key).mpr hymem)
    rcases Nat.lt_trichotomy j ((sortDescBy key l).findIdx (fun u => f u = f x))
      with hlt2 | heq | hgt2
    · exfalso
      have := hpg ⟨j, hj⟩ ⟨(sortDescBy key l).findIdx (fun u => f u = f x), hlt⟩
        (Fin.mk_lt_mk.mpr hlt2)
      rw [hget, hgj] at this
      omega
    · exfalso
      apply hfy
      rw [← hgj, ← hget]
      exact congrArg (fun i => f ((sortDescBy key l).get i)) (Fin.mk_eq_mk.mpr heq)
    · omega

theorem lookup_isSome_of_mem {k : String} {v : Int}
    {l : List (String × Int)} (h : (k, v) ∈ l) : (l.lookup k).isSome := by
  induction l with
  | nil => simp at h
  | cons e es ih =>
    obtain ⟨a, b⟩ := e
    by_cases hk : (k == a) = true
    · simp [List.lookup, hk]
    · have hk' : (k == a) = false := by
        simp only [Bool.not_eq_true] at hk
        exact hk
      rcases List.mem_cons.mp h with he | h2
      · exfalso
        have : k = a := congrArg Prod.fst he
        rw [this] at hk'
        simp at hk'
      · simp only [List.lookup, hk']
        exact ih h2

theorem sum_map_eq_sum_filter (f : α → Int) (p : α → Bool) (l : List α)
    (h : ∀ x ∈ l, p x = false → f x = 0) :
    (l.map f).sum = ((l.filter p).map f).sum := by
  induction l with
  | nil => rfl
  | cons x xs ih =>
    have ihx := ih (fun y hy hpy => h y (List.mem_cons_of_mem x hy) hpy)
    by_cases hp : p x
    · simp [List.filter_cons, hp, ihx]
    · have hfx : f x = 0 := h x (List.mem_cons_self x xs) (by simpa using hp)
      simp [List.filter_cons, hp, hfx, ihx]

theorem find?_eq_of_mem_of_map_nodup {β : Type} [DecidableEq β] (f : α → β)
    {l : List α} {x : α} (hx : x ∈ l) (hnd : (l.map f).Nodup) :
    l.find? (fun y => f y = f x) = some x := by
  induction l with
  | nil => simp at hx
  | cons a as ih =>
    simp only [List.map_cons, List.nodup_cons] at hnd
    by_cases hfa : f a = f x
    · have hax : a = x := by
        rcases List.mem_cons.mp hx with rfl | hxt
        · rfl
        · exact absurd (hfa ▸ List.mem_map_of_mem f hxt) hnd.1
      have hd : (decide (f a = f x)) = true := by simp [hfa]
      simp [List.find?, hd, hax]
    · have hxt : x ∈ as := by
        rcases List.mem_cons.mp hx with rfl | hxt
        · exact absurd rfl hfa
        · exact hxt
      have hd : (decide (f a = f x)) = false := by simp [hfa]
      simp only [List.find?, hd]
      exact ih hxt hnd.2

theorem length_filter_key_eq {β : Type} [DecidableEq β] (f : α → β)
    {l : List α} {x : α} (hx : x ∈ l) (hnd : (l.map f).Nodup) :
    (l.filter (fun y => f y = f x)).length = 1 := by
  induction l with
  | nil => simp at hx
  | cons a as ih =>
    simp only [List.map_cons, List.nodup_cons] at hnd
    by_cases hfa : f a = f x
    · have hnone : as.filter (fun y => f y = f x) = [] := by
        rw [List.filter_eq_nil_iff]
        intro y hy hc
        simp only [decide_eq_true_eq] at hc
        exact hnd.1 (by rw [← hfa] at hc; exact hc ▸ List.mem_map_of_mem f hy)
      simp [List.filter_cons, hfa, hnone]
    · have hxt : x ∈ as := by
        rcases List.mem_cons.mp hx with rfl | hxt
        · exact absurd rfl hfa
        · exact hxt
      simp only [List.filter_cons, decide_eq_true_eq]
      rw [if_neg hfa]
      exact ih hxt hnd.2

theorem assignRanks_rank (key : α → Int) (l : List α) (i : Nat)
    (h : i + 1 < (assignRanks key l).length)
    (h' : i < (assignRanks key l).length) :
    ((assignRanks key l).get ⟨i + 1, h⟩).2 =
      if key ((assignRanks key l).get ⟨i + 1, h⟩).1 =
          key ((assignRanks key l).get ⟨i, h'⟩).1
      then ((assignRanks key l).get ⟨i, h'⟩).2
      else i + 2 := by
  cases l with
  | nil => simp [assignRanks] at h
  | cons x xs =>
    cases i with
    | zero =>
      have h0 : 0 < (assignRanksGo key (key x) 1 2 xs).length := by
        simp only [assignRanks, List.length_cons] at h
        omega
      simpa [assignRanks] using assignRanksGo_head key (key x) 1 2 xs h0
    | succ j =>
      have hj : j + 1 < (assignRanksGo key (key x) 1 2 xs).length := by
        simp only [assignRanks, List.length_cons] at h
        omega
      have hj' : j < (assignRanksGo key (key x) 1 2 xs).length := by omega
      have := assignRanksGo_rank key xs (key x) 1 2 j hj hj'
      simp only [assignRanks, List.get_cons_succ]
      rw [this]
      congr 1
      omega

/-! ### Concrete fixtures used by counterexamples and witnesses -/

/-- Fixture team A. -/
def teamA : Team := { id := "A", name := "Alpha", captain := "a1", total_score := 0 }

/-- Fixture team B. -/
def teamB : Team := { id := "B", name := "Beta", captain := "b1", total_score := 0 }

/-- Fixture participants: two per team. -/
def partsAB : List Participant :=
  [ { id := "a1", name := "a1", team_id := "A" },
    { id := "a2", name := "a2", team_id := "A" },
    { id := "b1", name := "b1", team_id := "B" },
    { id := "b2", name := "b2", team_id := "B" } ]

/-- Fixture participants: two on team A, one on team B. -/
def parts3 : List Participant :=
  [ { id := "a1", name := "a1", team_id := "A" },
    { id := "a2", name := "a2", team_id := "A" },
    { id := "b1", name := "b1", team_id := "B" } ]

/-- The raw scores of the worked example of the spec (§8): A scores 20 and 15,
B scores 10 and 5. -/
def scoresMain : List (String × Int) := [("a1", 20), ("a2", 15), ("b1", 10), ("b2", 5)]

/-- Fixture individual activity. -/
def actInd : ActivityRow := { id := "act1", type := "individual", completed := false, winner := "" }

/-- A second individual activity, never scored. -/
def actInd2 : ActivityRow := { id := "act2", type := "individual", completed := false, winner := "" }

/-- Fixture team activity. -/
def actTeam : ActivityRow := { id := "actT", type := "team", completed := false, winner := "" }

/-- Initial store: one individual activity, no scores yet. -/
def storeInd : Store :=
  { scores := [], activities := [actInd], teams := [teamA, teamB], participants := partsAB }

/-- The store after saving the §8 scenario scores for the individual activity. -/
def storeSaved : Store := saveScoresOp storeInd actInd [] scoresMain none false defaultRules

/-- The store after a subsequent rules "change" that re-saves the SAME default
rules (the recomputation `Scoring.tsx` runs on every rules save). -/
def storeRecalced : Store := recalculateExistingScoresOp storeSaved defaultRules

/-! ### C7 -/

/-- The competition-ranking stage shared by `loadIndividualResults`
(`CompetitionResults.tsx`) and `calculateTeamSummaries` (`ScoreEntry.tsx`):
sort the entries descending by score, then assign tie-aware competition ranks. -/
def rankEntries (entries : List (String × Int)) : List ((String × Int) × Nat) :=
  assignRanks (fun e => e.2) (sortDescBy (fun e => e.2) entries)

/-- C7: `rankEntries` sorts the entries descending by score; the first entry
gets rank 1; each subsequent entry's rank equals its 1-based position unless
its score equals the immediately preceding entry's score, in which case it
inherits that rank.  In particular scores `[10, 10, 5]` yield ranks `[1, 1, 3]`
and effective placements `[1, 1, 3]`. -/
theorem C7_rankEntries_spec (entries : List (String × Int)) :
    ((rankEntries entries).map Prod.fst = sortDescBy (fun e => e.2) entries) ∧
    (∀ h : 0 < (rankEntries entries).length,
      ((rankEntries entries).get ⟨0, h⟩).2 = 1) ∧
    (∀ (i : Nat) (h : i + 1 < (rankEntries entries).length)
        (h' : i < (rankEntries entries).length),
      ((rankEntries entries).get ⟨i + 1, h⟩).2 =
        if ((rankEntries entries).get ⟨i + 1, h⟩).1.2 =
            ((rankEntries entries).get ⟨i, h'⟩).1.2
        then ((rankEntries entries).get ⟨i, h'⟩).2
        else i + 2) ∧
    ((rankEntries [("p1", 10), ("p2", 10), ("p3", 5)]).map (fun e => e.2) = [1, 1, 3]) ∧
    (effPlacementOf (buildPlacements [10, 10, 5] (uniqueScoresDesc [10, 10, 5]) 1) 10 = 1 ∧
      effPlacementOf (buildPlacements [10, 10, 5] (uniqueScoresDesc [10, 10, 5]) 1) 5 = 3) := by
  refine ⟨assignRanks_map_fst _ _, fun h => assignRanks_head _ _ h,
    fun i h h' => assignRanks_rank _ _ i h h', by decide, by decide, by decide⟩

/-- Witness for C7 at the spec's tie example `[10, 10, 5]`. -/
theorem C7_rankEntries_spec_witness :
    ((rankEntries [("p1", 10), ("p2", 10), ("p3", 5)]).map (fun e => e.2) = [1, 1, 3]) ∧
    ((rankEntries [("p1", 10), ("p2", 10), ("p3", 5)]).get ⟨0, by decide⟩).2 = 1 :=
  ⟨(C7_rankEntries_spec [("p1", 10), ("p2", 10), ("p3", 5)]).2.2.2.1,
    (C7_rankEntries_spec [("p1", 10), ("p2", 10), ("p3", 5)]).2.1 (by decide)⟩

/-! ### C3 -/

theorem length_filter_map (g : α → γ) (q : γ → Bool) (l : List α) :
    ((l.map g).filter q).length = (l.filter (fun a => q (g a))).length := by
  induction l with
  | nil => rfl
  | cons a as ih =>
    by_cases h : q (g a) <;> simp [List.filter_cons, h, ih]

/-- C3: in team win/loss mode with a winning team selected, `saveScores`
produces exactly one team-kind record per team; the winner's points are
`teamWin`, every other team's points are `teamLoss`; and the stored winner
name is the winning team's name. -/
theorem C3_team_winloss (r : ScoringRules) (act : ActivityRow)
    (teams : List Team) (parts : List Participant)
    (tsc isc : List (String × Int)) (w : Team)
    (hact : act.type = "team") (hw : w ∈ teams)
    (hnd : (teams.map (fun t => t.id)).Nodup) :
    ((saveScoreInserts act teams parts tsc isc (some w.id) false r).length =
      teams.length) ∧
    (∀ t ∈ teams,
      ((saveScoreInserts act teams parts tsc isc (some w.id) false r).filter
        (fun rec => rec.team_id = some t.id)).length = 1) ∧
    (∀ rec ∈ saveScoreInserts act teams parts tsc isc (some w.id) false r,
      rec.score_type = "team" ∧
      rec.points_earned = if rec.team_id = some w.id then r.teamWin else r.teamLoss) ∧
    saveWinner act teams parts isc (some w.id) r = w.name := by
  have hins : saveScoreInserts act teams parts tsc isc (some w.id) false r =
      teams.map (fun team =>
        { activity_id := act.id, team_id := some team.id, participant_id := none,
          value := some (if team.id = w.id then 1 else 0), individual_score := none,
          score_type := "team",
          points_earned := if team.id = w.id then r.teamWin else r.teamLoss }) := by
    simp [saveScoreInserts, hact]
  refine ⟨?_, ?_, ?_, ?_⟩
  · rw [hins, List.length_map]
  · intro t ht
    rw [hins, length_filter_map]
    have : (teams.filter (fun a => decide (some a.id = some t.id))).length =
        (teams.filter (fun a => a.id = t.id)).length := by
      congr 1
      apply List.filter_congr
      intro u _
      simp
    rw [this]
    exact length_filter_key_eq (fun t => t.id) ht hnd
  · intro rec hrec
    rw [hins] at hrec
    rcases List.mem_map.mp hrec with ⟨t, _, rfl⟩
    refine ⟨rfl, ?_⟩
    by_cases h : t.id = w.id <;> simp [h]
  · simp only [saveWinner, hact, if_pos]
    rw [find?_eq_of_mem_of_map_nodup (fun t => t.id) hw hnd]
    rfl

/-- Witness for C3: concrete two-team win/loss save with B selected. -/
theorem C3_team_winloss_witness :
    ((saveScoreInserts actTeam [teamA, teamB] partsAB [] [] (some teamB.id) false
      defaultRules).length = 2) ∧
    saveWinner actTeam [teamA, teamB] partsAB [] (some teamB.id) defaultRules = "Beta" :=
  ⟨(C3_team_winloss defaultRules actTeam [teamA, teamB] partsAB [] [] teamB rfl
      (by decide) (by decide)).1,
    (C3_team_winloss defaultRules actTeam [teamA, teamB] partsAB [] [] teamB rfl
      (by decide) (by decide)).2.2.2⟩

/-! ### C9 -/

/-- Store with just the team activity, for the no-winner save. -/
def storeTeam : Store :=
  { scores := [], activities := [actTeam], teams := [teamA, teamB], participants := partsAB }

/-- C9 counterexample: saving a team win/loss activity with NO winner selected
still marks the activity completed (with an empty winner) — `saveScores`
updates `completed: true` unconditionally. -/
theorem C9_counterexample :
    ((saveScoresOp storeTeam actTeam [] [] none false defaultRules).activities.map
      (fun a => (a.id, a.completed, a.winner))) = [("actT", true, "")] ∧
    (saveScoresOp storeTeam actTeam [] [] none false defaultRules).scores = [] := by
  decide

/-- C9 amended: in win/loss mode with no winner selected the save produces no
score rows for the activity (old rows are deleted, none inserted), but the
activity IS marked completed, with an empty winner string. -/
theorem C9_no_winner_amended (st : Store) (act : ActivityRow)
    (tsc isc : List (String × Int)) (r : ScoringRules) (hact : act.type = "team") :
    (saveScoreInserts act st.teams st.participants tsc isc none false r = []) ∧
    ((saveScoresOp st act tsc isc none false r).scores.filter
      (fun rec => rec.activity_id = act.id) = []) ∧
    (∀ a ∈ (saveScoresOp st act tsc isc none false r).activities,
      a.id = act.id → a.completed = true ∧ a.winner = "") := by
  have hins : saveScoreInserts act st.teams st.participants tsc isc none false r = [] := by
    simp [saveScoreInserts, hact]
  refine ⟨hins, ?_, ?_⟩
  · simp only [saveScoresOp, hins, List.append_nil]
    rw [List.filter_filter]
    rw [List.filter_eq_nil_iff]
    intro rec _
    simp
  · intro a ha hid
    simp only [saveScoresOp, List.mem_map] at ha
    rcases ha with ⟨a0, _, rfl⟩
    by_cases h0 : a0.id = act.id
    · rw [if_pos h0]
      refine ⟨rfl, ?_⟩
      simp [saveWinner, hact]
    · rw [if_neg h0] at hid ⊢
      exact absurd hid h0

/-- Witness for C9's amended statement on the concrete no-winner save. -/
theorem C9_no_winner_amended_witness :
    (saveScoreInserts actTeam storeTeam.teams storeTeam.participants [] [] none false
      defaultRules = []) ∧
    ((saveScoresOp storeTeam actTeam [] [] none false defaultRules).scores.filter
      (fun rec => rec.activity_id = actTeam.id) = []) :=
  ⟨(C9_no_winner_amended storeTeam actTeam [] [] defaultRules rfl).1,
    (C9_no_winner_amended storeTeam actTeam [] [] defaultRules rfl).2.1⟩

/-! ### C1 -/

/-- The totals invariant the code actually maintains: every team's cached
`total_score` equals the sum of `points_earned` over ALL of the team's score
rows — team-kind AND individual-kind alike, since `recalculateAllTeamTotals`
filters only on `team_id`. -/
def totalsMatchScores (st : Store) : Prop :=
  ∀ t ∈ st.teams, t.total_score = teamTotalFromScores st.scores t.id

instance (st : Store) : Decidable (totalsMatchScores st) := by
  unfold totalsMatchScores
  infer_instance

theorem recalcTeams_totals (scores : List ScoreRecord) (teams : List Team) :
    ∀ t ∈ recalcTeams scores teams, t.total_score = teamTotalFromScores scores t.id := by
  intro t ht
  rcases List.mem_map.mp ht with ⟨u, _, rfl⟩
  rfl

/-- C1 amended: after each of the three operations that end with a from-scratch
total recomputation — saving an activity's scores, deleting an activity,
recomputing after a rules change — every team's `total_score` equals the sum
of points over ALL score rows carrying its `team_id` (not only the team-kind
rows, as the original claim states). -/
theorem C1_totals_after_ops (st : Store) (act : ActivityRow) (aid : String)
    (tsc isc : List (String × Int)) (sel : Option String) (uc : Bool)
    (r newRules : ScoringRules) :
    totalsMatchScores (saveScoresOp st act tsc isc sel uc r) ∧
    totalsMatchScores (deleteActivityOp st aid) ∧
    totalsMatchScores (recalculateExistingScoresOp st newRules) :=
  ⟨recalcTeams_totals _ _, recalcTeams_totals _ _, recalcTeams_totals _ _⟩

/-- Witness for C1's amended invariant on the concrete saved store. -/
theorem C1_totals_after_ops_witness : totalsMatchScores storeSaved :=
  (C1_totals_after_ops storeInd actInd "act1" [] scoresMain none false
    defaultRules defaultRules).1

/-- C1 counterexample: after the rules-change recomputation (here re-saving the
UNCHANGED default rules), team A's cached total is −10, while the sum of
points over A's team-kind rows alone is 0 — the totals include the
individual-kind rows, whose points the recomputation made non-zero.  The
original claim (totals = sum over team-kind records) therefore fails after a
rule change. -/
theorem C1_counterexample :
    ((storeRecalced.teams.map (fun t => (t.id, t.total_score))) =
      [("A", -10), ("B", -10)]) ∧
    (((storeRecalced.scores.filter (fun rec => rec.score_type = "team" ∧
        rec.team_id = some "A")).map (fun rec => rec.points_earned)).sum = 0) ∧
    ((-10 : Int) ≠ 0) := by
  decide

/-! ### C2 -/

/-- The spec's rule-change example: `firstPlace` raised from 10 to 20. -/
def rules20 : ScoringRules := { defaultRules with firstPlace := 20 }

/-- C2: the rule-change recomputation does NOT reproduce a fresh save.  For the
§8 scenario saved under the default rules and then recomputed under
`firstPlace = 20`: a fresh save under the new rules gives team A's team-kind
row 75 points (50 placement + 20 + 5 bonuses), but the recomputation leaves
A's team-kind row at 0 (its `value === 1` winner test fails, since the stored
`value` is the team total 35) and instead writes bonus points onto the
individual-kind rows (all of them the last-place penalty, because it reads the
`value` column — `null` for individual rows — instead of `individual_score`).
Even recomputing with the UNCHANGED default rules alters the stored rows. -/
theorem C2_code_bug :
    ((((saveScoreInserts actInd [teamA, teamB] partsAB [] scoresMain none false
        rules20).filter (fun rec => rec.score_type = "team" ∧
          rec.team_id = some "A")).map (fun rec => rec.points_earned)) = [75]) ∧
    ((((recalculateExistingScoresOp storeSaved rules20).scores.filter
        (fun rec => rec.score_type = "team" ∧ rec.team_id = some "A")).map
          (fun rec => rec.points_earned)) = [0]) ∧
    ((((recalculateExistingScoresOp storeSaved rules20).scores.filter
        (fun rec => rec.score_type = "individual")).map
          (fun rec => rec.points_earned)) = [-5, -5, -5, -5]) ∧
    (storeRecalced.scores ≠ storeSaved.scores) ∧
    ((storeSaved.teams.map (fun t => t.total_score)) = [65, -5]) ∧
    (((recalculateExistingScoresOp storeSaved rules20).teams.map
      (fun t => t.total_score)) = [-10, -10]) := by
  decide

/-! ### C8 -/

/-- A completed copy of the first individual activity. -/
def actIndDone : ActivityRow :=
  { id := "act1", type := "individual", completed := true, winner := "Alpha" }

/-- The single stored individual row: participant a1 scored 5 in act1. -/
def recA1 : ScoreRecord :=
  { activity_id := "act1", team_id := some "A", participant_id := some "a1",
    value := none, individual_score := some 5, score_type := "individual",
    points_earned := 0 }

/-- Store with one scored individual activity and a second individual activity
that has no scored entries at all. -/
def storeMVP : Store :=
  { scores := [recA1], activities := [actIndDone, actInd2],
    teams := [teamA, teamB], participants := partsAB }

/-- C8: `calculateMVP` does not restrict itself to completed activities with at
least one scored entry.  With a1 ranked 1 in the only scored individual
activity and a second individual activity that has no entries, the code
returns no MVP (the empty result array of the unscored activity is truthy, so
the activity is counted and nobody is participation-complete); dropping the
unscored activity yields a1 as MVP — so the unscored activity is what blocks
the result, contradicting the claim's filter. -/
theorem C8_code_bug :
    (computeMVPFromStore storeMVP = none) ∧
    (computeMVPFromStore { storeMVP with activities := [actIndDone] } = some "a1") ∧
    ((loadIndividualResults storeMVP.activities storeMVP.scores).lookup "act2" =
      some []) := by
  decide

/-! ### C5 -/

/-- C5 counterexample: with scored values `[10, 5, 5]` the two participants
tied at the single lowest effective placement (placement 2) each receive the
SECOND-place bonus (+5), not the last-place penalty (−5): the save path awards
the penalty only when the competition rank equals the participant count, which
never holds for a tie at the bottom, and the `else if` chain makes the three
bonuses mutually exclusive. -/
theorem C5_counterexample :
    (buildPlacements [10, 5, 5] (uniqueScoresDesc [10, 5, 5]) 1 = [(10, 1), (5, 2)]) ∧
    (((calculateTeamSummaries "individual" [teamA, teamB] parts3
        [("a1", 10), ("a2", 5), ("b1", 5)] defaultRules).map
      (fun s => s.individual_bonuses.map (fun e => (e.participant, e.bonus, e.reason)))) =
      [[("a1", 10, "1st Place Overall"), ("a2", 5, "2nd Place Overall")],
       [("b1", 5, "2nd Place Overall")]]) ∧
    (defaultRules.lastPlace = -5) := by
  decide

/-- C5 amended: in the save path a bonus entry with the last-place reason is
produced only when the participant's competition rank equals the total
participant count (a unique last place) AND the participant did not qualify
for the first- or second-place branches — the chain is mutually exclusive, so
a top bonus and the penalty are never awarded together, let alone additively. -/
theorem C5_last_place_unique (rules : ScoringRules)
    (rankings : List (RankedP × Nat)) (placements : List (Int × Nat))
    (allSorted : List RankedP) (p : PScore) (b : BonusEntry)
    (entry : RankedP × Nat)
    (hfind : rankings.find? (fun x => x.1.pid = p.id) = some entry)
    (hres : bonusEntryFor rules rankings placements allSorted p = some b)
    (hreason : b.reason = "Last Place Overall") :
    entry.2 = allSorted.length ∧ allSorted.length > 2 ∧
    ¬ (effPlacementOf placements entry.1.score = 1 ∧ allSorted.length > 1) ∧
    ¬ (effPlacementOf placements entry.1.score = 2 ∧ allSorted.length > 2) := by
  simp only [bonusEntryFor, hfind] at hres
  by_cases h1 : effPlacementOf placements entry.1.score = 1 ∧ allSorted.length > 1
  · rw [if_pos h1] at hres
    obtain rfl := Option.some.inj hres
    simp only at hreason
    split_ifs at hreason <;> exact absurd hreason (by decide)
  · rw [if_neg h1] at hres
    by_cases h2 : effPlacementOf placements entry.1.score = 2 ∧ allSorted.length > 2
    · rw [if_pos h2] at hres
      obtain rfl := Option.some.inj hres
      simp at hreason
    · rw [if_neg h2] at hres
      by_cases h3 : entry.2 = allSorted.length ∧ allSorted.length > 2
      · exact ⟨h3.1, h3.2, h1, h2⟩
      · rw [if_neg h3] at hres
        exact absurd hres (by simp)

/-- Three scored participants with distinct values, for the C5 witness. -/
def all3 : List RankedP :=
  [ { pid := "a1", pname := "a1", score := 10, team_id := "A", team_name := "Alpha" },
    { pid := "a2", pname := "a2", score := 5, team_id := "A", team_name := "Alpha" },
    { pid := "b1", pname := "b1", score := 3, team_id := "B", team_name := "Beta" } ]

/-- The sorted participant list of `all3`. -/
def allSorted3 : List RankedP := sortDescBy (fun x => x.score) all3

/-- The rank assignment over `allSorted3`. -/
def rankings3 : List (RankedP × Nat) := assignRanks (fun x => x.score) allSorted3

/-- The effective-placement table of `allSorted3`. -/
def placements3 : List (Int × Nat) :=
  buildPlacements (allSorted3.map (fun x => x.score))
    (uniqueScoresDesc (allSorted3.map (fun x => x.score))) 1

/-- The ranking entry of the unique last participant b1. -/
def entryB1 : RankedP × Nat :=
  ({ pid := "b1", pname := "b1", score := 3, team_id := "B", team_name := "Beta" }, 3)

/-- Witness for C5's amended statement: b1, unique last of `[10, 5, 3]`,
receives the last-place entry and satisfies the characterization. -/
theorem C5_last_place_unique_witness :
    entryB1.2 = allSorted3.length ∧ allSorted3.length > 2 ∧
    ¬ (effPlacementOf placements3 entryB1.1.score = 1 ∧ allSorted3.length > 1) ∧
    ¬ (effPlacementOf placements3 entryB1.1.score = 2 ∧ allSorted3.length > 2) :=
  C5_last_place_unique defaultRules rankings3 placements3 allSorted3
    { id := "b1", name := "b1", score := 3 }
    { participant := "b1", bonus := -5, reason := "Last Place Overall" }
    entryB1 (by decide) (by decide) rfl

/-! ### C6 -/

/-- C6 counterexample: participant b1 has no recorded score, yet with entries
`[a1 ↦ 10, a2 ↦ 5]` he IS ranked (with score 0), becomes the unique last of
three, and receives the last-place penalty on team B — contradicting the
claim that unscored participants are excluded from the ranking and can
receive no penalty. -/
theorem C6_counterexample :
    (([("a1", (10 : Int)), ("a2", 5)]).lookup "b1" = none) ∧
    (((calculateTeamSummaries "individual" [teamA, teamB] parts3
        [("a1", 10), ("a2", 5)] defaultRules).map
      (fun s => s.individual_bonuses.map (fun e => (e.participant, e.bonus, e.reason)))) =
      [[("a1", 10, "1st Place Overall"), ("a2", 5, "2nd Place Overall")],
       [("b1", -5, "Last Place Overall")]]) := by
  decide

/-- C6 amended: a participant with no recorded entry appears in no
individual-kind score row, and contributes nothing to the team total (the
total over all team participants equals the total over just the participants
that have an entry); but such participants are NOT excluded from the
cross-team ranking — they are ranked with score 0 (see the counterexample). -/
theorem C6_excluded (act : ActivityRow) (teams : List Team)
    (parts : List Participant) (tsc isc : List (String × Int))
    (sel : Option String) (uc : Bool) (r : ScoringRules) (pid : String)
    (team : Team) (hmiss : isc.lookup pid = none) :
    (∀ rec ∈ saveScoreInserts act teams parts tsc isc sel uc r,
      rec.score_type = "individual" → rec.participant_id ≠ some pid) ∧
    ((baseSummary parts isc team).total_score =
      (((parts.filter (fun p => p.team_id = team.id)).filter
        (fun p => (isc.lookup p.id).isSome)).map (fun p => scoreOf isc p.id)).sum) := by
  constructor
  · intro rec hrec htype hpe
    simp only [saveScoreInserts] at hrec
    by_cases hat : act.type = "team"
    · rw [if_pos hat] at hrec
      cases uc with
      | false =>
        simp only [Bool.false_eq_true, if_false] at hrec
        cases sel with
        | none => simp at hrec
        | some w =>
          rcases List.mem_map.mp hrec with ⟨t, _, rfl⟩
          simp at htype
      | true =>
        simp only [if_true] at hrec
        rcases List.mem_filterMap.mp hrec with ⟨ts, _, hf⟩
        by_cases hv : ts.2 > 0
        · rw [if_pos hv] at hf
          obtain rfl := Option.some.inj hf
          simp at htype
        · rw [if_neg hv] at hf
          cases hf
    · rw [if_neg hat] at hrec
      rcases List.mem_append.mp hrec with hrec | hrec
      · rcases List.mem_filterMap.mp hrec with ⟨isc0, hkv, hf⟩
        by_cases hv : isc0.2 > 0
        · rw [if_pos hv] at hf
          obtain rfl := Option.some.inj hf
          simp only [Option.some.injEq] at hpe
          have hsome : (isc.lookup isc0.1).isSome := lookup_isSome_of_mem hkv
          rw [hpe, hmiss] at hsome
          simp at hsome
        · rw [if_neg hv] at hf
          cases hf
      · rcases List.mem_map.mp hrec with ⟨s, _, rfl⟩
        simp at htype
  · have h1 : (baseSummary parts isc team).total_score =
        ((parts.filter (fun p => p.team_id = team.id)).map
          (fun p => scoreOf isc p.id)).sum := by
      simp only [baseSummary, List.map_map]
      rfl
    rw [h1]
    refine sum_map_eq_sum_filter _ _ _ ?_
    intro p _ hf
    have hn : isc.lookup p.id = none := by
      rcases ho : isc.lookup p.id with _ | v
      · rfl
      · rw [ho] at hf; simp at hf
    simp [scoreOf, hn]

/-- Witness for C6's amended statement: team B's total with b1 unscored equals
the total over B's scored participants (both are 0). -/
theorem C6_excluded_witness :
    (baseSummary parts3 [("a1", 10), ("a2", 5)] teamB).total_score =
      (((parts3.filter (fun p => p.team_id = teamB.id)).filter
        (fun p => (([("a1", (10 : Int)), ("a2", 5)]).lookup p.id).isSome)).map
          (fun p => scoreOf [("a1", 10), ("a2", 5)] p.id)).sum :=
  (C6_excluded actInd [teamA, teamB] parts3 [] [("a1", 10), ("a2", 5)] none false
    defaultRules "b1" teamB (by decide)).2

/-! ### C4 and C10: placement bonus characterization -/

@[simp] theorem baseSummary_team_id (parts : List Participant)
    (isc : List (String × Int)) (team : Team) :
    (baseSummary parts isc team).team_id = team.id := rfl

/-- Every summary produced by `calculateTeamSummaries` (when some team total is
positive) belongs to an input team, and its placement bonus is determined by
its position in the list of base summaries sorted descending by team total. -/
theorem calcTS_placement (r : ScoringRules) (teams : List Team)
    (parts : List Participant) (isc : List (String × Int)) (s : TeamSummary)
    (hany : (teams.map (baseSummary parts isc)).any (fun u => u.total_score > 0) = true)
    (hmem : s ∈ calculateTeamSummaries "individual" teams parts isc r) :
    (∃ t ∈ teams, s.team_id = t.id) ∧
    s.placement_bonus = placementBonusAt r teams.length
      ((sortDescBy (fun u => u.total_score) (teams.map (baseSummary parts isc))).findIdx
        (fun u => u.team_id = s.team_id)) := by
  simp only [calculateTeamSummaries] at hmem
  rw [if_neg (by simp)] at hmem
  rw [if_neg (by simp [hany])] at hmem
  rcases List.mem_map.mp hmem with ⟨s1, hs1, rfl⟩
  rcases List.mem_map.mp hs1 with ⟨b, hb, rfl⟩
  rcases List.mem_map.mp hb with ⟨t, ht, rfl⟩
  have hlen : (sortDescBy (fun u : TeamSummary => u.total_score)
      (teams.map (baseSummary parts isc))).length = teams.length := by
    rw [length_sortDescBy, List.length_map]
  refine ⟨⟨t, ht, rfl⟩, ?_⟩
  rw [← hlen]

theorem sortDescBy_pair (key : α → Int) (x y : α) :
    sortDescBy key [x, y] = if key y ≤ key x then [x, y] else [y, x] := by
  simp only [sortDescBy, insertDescBy]

/-- C4 amended: when at least two teams exist and some team total is positive,
the team with the strictly highest total receives `teamWin`, the team with the
strictly lowest total receives `teamLoss`, and a team with a team strictly
above it and a team strictly below it receives 0.  (Placement applies whenever
two or more TEAMS exist, even if only one of them has scored participants —
see the counterexample.) -/
theorem C4_placement (r : ScoringRules) (teams : List Team)
    (parts : List Participant) (isc : List (String × Int))
    (hlen : 1 < teams.length)
    (hnd : (teams.map (fun t => t.id)).Nodup)
    (hpos : ∃ t ∈ teams, 0 < (baseSummary parts isc t).total_score) :
    (∀ tmax ∈ teams, (∀ u ∈ teams, u.id ≠ tmax.id →
        (baseSummary parts isc u).total_score < (baseSummary parts isc tmax).total_score) →
      ∀ s ∈ calculateTeamSummaries "individual" teams parts isc r,
        s.team_id = tmax.id → s.placement_bonus = r.teamWin) ∧
    (∀ tmin ∈ teams, (∀ u ∈ teams, u.id ≠ tmin.id →
        (baseSummary parts isc tmin).total_score < (baseSummary parts isc u).total_score) →
      ∀ s ∈ calculateTeamSummaries "individual" teams parts isc r,
        s.team_id = tmin.id → s.placement_bonus = r.teamLoss) ∧
    (∀ tmid ∈ teams,
      (∃ u ∈ teams, u.id ≠ tmid.id ∧
        (baseSummary parts isc tmid).total_score < (baseSummary parts isc u).total_score) →
      (∃ v ∈ teams, v.id ≠ tmid.id ∧
        (baseSummary parts isc v).total_score < (baseSummary parts isc tmid).total_score) →
      ∀ s ∈ calculateTeamSummaries "individual" teams parts isc r,
        s.team_id = tmid.id → s.placement_bonus = 0) := by
  obtain ⟨t0, ht0, hpos0⟩ := hpos
  have hany : (teams.map (baseSummary parts isc)).any (fun u => u.total_score > 0) = true := by
    rw [List.any_eq_true]
    exact ⟨baseSummary parts isc t0, List.mem_map_of_mem _ ht0, by simpa using hpos0⟩
  have hndb : ((teams.map (baseSummary parts isc)).map
      (fun u : TeamSummary => u.team_id)).Nodup := by
    rw [List.map_map]
    simpa [Function.comp_def, baseSummary_team_id] using hnd
  refine ⟨?_, ?_, ?_⟩
  · intro tmax htmax hmax s hs hsid
    obtain ⟨_, hpb⟩ := calcTS_placement r teams parts isc s hany hs
    rw [hpb, hsid]
    have hbmem : baseSummary parts isc tmax ∈ teams.map (baseSummary parts isc) :=
      List.mem_map_of_mem _ htmax
    have hidx := findIdx_sortDescBy_max (fun u : TeamSummary => u.total_score)
      (fun u : TeamSummary => u.team_id) hbmem ?_
    · simp only [baseSummary_team_id] at hidx
      rw [hidx]
      unfold placementBonusAt
      rw [if_pos (by omega)]
    · intro y hy hyne
      rcases List.mem_map.mp hy with ⟨u, hu, rfl⟩
      simp only [baseSummary_team_id] at hyne
      exact hmax u hu hyne
  · intro tmin htmin hmin s hs hsid
    obtain ⟨_, hpb⟩ := calcTS_placement r teams parts isc s hany hs
    rw [hpb, hsid]
    have hbmem : baseSummary parts isc tmin ∈ teams.map (baseSummary parts isc) :=
      List.mem_map_of_mem _ htmin
    have hidx := findIdx_sortDescBy_min (fun u : TeamSummary => u.total_score)
      (fun u : TeamSummary => u.team_id) hbmem hndb ?_
    · simp only [baseSummary_team_id] at hidx
      rw [hidx, List.length_map]
      unfold placementBonusAt
      rw [if_neg (by omega), if_pos (by omega)]
    · intro y hy hyne
      rcases List.mem_map.mp hy with ⟨u, hu, rfl⟩
      simp only [baseSummary_team_id] at hyne
      exact hmin u hu hyne
  · intro tmid htmid hup hdown s hs hsid
    obtain ⟨_, hpb⟩ := calcTS_placement r teams parts isc s hany hs
    rw [hpb, hsid]
    have hbmem : baseSummary parts isc tmid ∈ teams.map (baseSummary parts isc) :=
      List.mem_map_of_mem _ htmid
    have hidx := findIdx_sortDescBy_middle (fun u : TeamSummary => u.total_score)
      (fun u : TeamSummary => u.team_id) hbmem hndb ?_ ?_
    · simp only [baseSummary_team_id, List.length_map] at hidx
      unfold placementBonusAt
      rw [if_neg (by omega), if_neg (by omega)]
    · rcases hup with ⟨u, hu, hune, hult⟩
      exact ⟨baseSummary parts isc u, List.mem_map_of_mem _ hu,
        by simpa [baseSummary_team_id] using hune, hult⟩
    · rcases hdown with ⟨v, hv, hvne, hvlt⟩
      exact ⟨baseSummary parts isc v, List.mem_map_of_mem _ hv,
        by simpa [baseSummary_team_id] using hvne, hvlt⟩

/-- Default rules with a non-zero `teamLoss`, to make the last-place team
bonus observable. -/
def rulesLoss7 : ScoringRules := { defaultRules with teamLoss := 7 }

/-- C4 counterexample: only team A has participants with entries (a1 ↦ 10; B's
participants have none), yet placement IS applied: A receives `teamWin` and B
receives `teamLoss` (= 7 here) — the code requires two TEAMS, not two SCORED
teams, contradicting the claim's "no placement bonus is applied to anyone". -/
theorem C4_counterexample :
    (([("a1", (10 : Int))]).lookup "b1" = none ∧
      ([("a1", (10 : Int))]).lookup "b2" = none) ∧
    (((calculateTeamSummaries "individual" [teamA, teamB] partsAB
        [("a1", 10)] rulesLoss7).map
      (fun s => (s.team_id, s.placement_bonus))) = [("A", 50), ("B", 7)]) ∧
    ((7 : Int) ≠ 0) := by
  decide

/-- Scores with distinct team totals for the C4 witness: A totals 10, B totals 4. -/
def iscC4w : List (String × Int) := [("a1", 10), ("b1", 4)]

/-- Witness for C4's amended statement: with totals A = 10 > B = 4, the first
output summary (team A) carries `teamWin`. -/
theorem C4_placement_witness :
    ((calculateTeamSummaries "individual" [teamA, teamB] partsAB iscC4w
      defaultRules).get ⟨0, by decide⟩).placement_bonus = defaultRules.teamWin :=
  (C4_placement defaultRules [teamA, teamB] partsAB iscC4w (by decide) (by decide)
      ⟨teamA, by decide, by decide⟩).1 teamA (by decide) (by decide)
    ((calculateTeamSummaries "individual" [teamA, teamB] partsAB iscC4w
      defaultRules).get ⟨0, by decide⟩)
    (List.get_mem _ _ _) (by decide)

/-! ### C10 -/

/-- C10: in individual mode with the two team totals EQUAL (and positive), the
placement bonuses are still assigned unequally: the team listed first in the
input receives `teamWin` and the other receives `teamLoss`, in either input
order; so whenever `teamWin ≠ teamLoss` the per-team outcome depends on the
order of the input team list. -/
theorem C10_tie_uses_input_order (r : ScoringRules) (t1 t2 : Team)
    (parts : List Participant) (isc : List (String × Int))
    (hne : t1.id ≠ t2.id)
    (heq : (baseSummary parts isc t1).total_score =
      (baseSummary parts isc t2).total_score)
    (hpos : 0 < (baseSummary parts isc t1).total_score) :
    (∀ s ∈ calculateTeamSummaries "individual" [t1, t2] parts isc r,
      (s.team_id = t1.id → s.placement_bonus = r.teamWin) ∧
      (s.team_id = t2.id → s.placement_bonus = r.teamLoss)) ∧
    (∀ s ∈ calculateTeamSummaries "individual" [t2, t1] parts isc r,
      (s.team_id = t2.id → s.placement_bonus = r.teamWin) ∧
      (s.team_id = t1.id → s.placement_bonus = r.teamLoss)) ∧
    (r.teamWin ≠ r.teamLoss →
      ∀ s ∈ calculateTeamSummaries "individual" [t1, t2] parts isc r,
      ∀ s' ∈ calculateTeamSummaries "individual" [t2, t1] parts isc r,
        s.team_id = t1.id → s'.team_id = t1.id →
        s.placement_bonus ≠ s'.placement_bonus) := by
  have hany1 : (([t1, t2]).map (baseSummary parts isc)).any
      (fun u => u.total_score > 0) = true := by
    simp only [List.map_cons, List.map_nil, List.any_cons]
    simp [hpos]
  have hany2 : (([t2, t1]).map (baseSummary parts isc)).any
      (fun u => u.total_score > 0) = true := by
    simp only [List.map_cons, List.map_nil, List.any_cons]
    simp [hpos]
  have hsort1 : sortDescBy (fun u : TeamSummary => u.total_score)
      [baseSummary parts isc t1, baseSummary parts isc t2] =
      [baseSummary parts isc t1, baseSummary parts isc t2] := by
    rw [sortDescBy_pair, if_pos (le_of_eq heq.symm)]
  have hsort2 : sortDescBy (fun u : TeamSummary => u.total_score)
      [baseSummary parts isc t2, baseSummary parts isc t1] =
      [baseSummary parts isc t2, baseSummary parts isc t1] := by
    rw [sortDescBy_pair, if_pos (le_of_eq heq)]
  have hpart1 : ∀ s ∈ calculateTeamSummaries "individual" [t1, t2] parts isc r,
      (s.team_id = t1.id → s.placement_bonus = r.teamWin) ∧
      (s.team_id = t2.id → s.placement_bonus = r.teamLoss) := by
    intro s hs
    obtain ⟨_, hpb⟩ := calcTS_placement r [t1, t2] parts isc s hany1 hs
    simp only [List.map_cons, List.map_nil, hsort1] at hpb
    constructor
    · intro hsid
      rw [hpb, hsid]
      simp only [List.findIdx_cons, baseSummary_team_id]
      simp [placementBonusAt]
    · intro hsid
      rw [hpb, hsid]
      simp only [List.findIdx_cons, baseSummary_team_id]
      simp [placementBonusAt, hne]
  have hpart2 : ∀ s ∈ calculateTeamSummaries "individual" [t2, t1] parts isc r,
      (s.team_id = t2.id → s.placement_bonus = r.teamWin) ∧
      (s.team_id = t1.id → s.placement_bonus = r.teamLoss) := by
    intro s hs
    obtain ⟨_, hpb⟩ := calcTS_placement r [t2, t1] parts isc s hany2 hs
    simp only [List.map_cons, List.map_nil, hsort2] at hpb
    constructor
    · intro hsid
      rw [hpb, hsid]
      simp only [List.findIdx_cons, baseSummary_team_id]
      simp [placementBonusAt]
    · intro hsid
      rw [hpb, hsid]
      simp only [List.findIdx_cons, baseSummary_team_id]
      have hne' : t2.id ≠ t1.id := fun h => hne h.symm
      simp [placementBonusAt, hne']
  refine ⟨hpart1, hpart2, ?_⟩
  intro hneq s hs s' hs' h1 h1'
  rw [(hpart1 s hs).1 h1, (hpart2 s' hs').2 h1']
  exact hneq

/-- Equal team totals (7 and 7) for the C10 witness. -/
def isc10 : List (String × Int) := [("a1", 7), ("b1", 7)]

/-- Witness for C10: with equal totals, team A's summary gets `teamWin` when A
is listed first and `teamLoss` when A is listed second. -/
theorem C10_tie_uses_input_order_witness :
    (((calculateTeamSummaries "individual" [teamA, teamB] partsAB isc10
        defaultRules).get ⟨0, by decide⟩).placement_bonus = defaultRules.teamWin) ∧
    (((calculateTeamSummaries "individual" [teamB, teamA] partsAB isc10
        defaultRules).get ⟨1, by decide⟩).placement_bonus = defaultRules.teamLoss) :=
  ⟨((C10_tie_uses_input_order defaultRules teamA teamB partsAB isc10 (by decide)
        (by decide) (by decide)).1
      ((calculateTeamSummaries "individual" [teamA, teamB] partsAB isc10
        defaultRules).get ⟨0, by decide⟩) (List.get_mem _ _ _)).1 (by decide),
    ((C10_tie_uses_input_order defaultRules teamA teamB partsAB isc10 (by decide)
        (by decide) (by decide)).2.1
      ((calculateTeamSummaries "individual" [teamB, teamA] partsAB isc10
        defaultRules).get ⟨1, by decide⟩) (List.get_mem _ _ _)).2 (by decide)⟩

end Boast
